import Mathlib

/-!
# Verification of the MarketSim bribery-market core

A shallow embedding of the MarketSim repository (stake-weighted sampling,
the equal-second-price auction mechanism, and the epoch runner) together
with proofs about the embedded definitions.

Conventions of the embedding:
* Python `int | float` money amounts are modelled as `ℚ`.
* Market participants (`Cluster` objects, compared by identity) are modelled
  as natural-number identifiers.
* Python functions that can raise (`ValueError`, `TypeError`, `AssertionError`,
  `AttributeError`, `max([])`'s `ValueError`, `list[-1]`'s `IndexError`) are
  modelled with `Option`/`Except`, returning `none`/`.error` exactly where the
  Python code raises.
-/

namespace MarketSim

/-- Market participants are compared by object identity in Python; we model
them as bare identifiers. -/
abbrev Cluster := ℕ

/-- Embeds `EqualSecondPriceBid` from `src/market/equal_second_price_auction.py`.
Field defaults follow the `@dataclass` defaults. -/
structure EqualSecondPriceBid where
  willing_to_pay : ℚ := 0
  willing_to_receive_bribes : Bool := false
  reputation_value : ℚ := 0
deriving DecidableEq

/-- The `minimum_gain` property of `EqualSecondPriceBid`: returns
`reputation_value`. -/
def EqualSecondPriceBid.minimum_gain (b : EqualSecondPriceBid) : ℚ :=
  b.reputation_value

/-- The `valuation_of_own_slots` property of `EqualSecondPriceBid`: returns
`willing_to_pay`. -/
def EqualSecondPriceBid.valuation_of_own_slots (b : EqualSecondPriceBid) : ℚ :=
  b.willing_to_pay

/-- Embeds `EqualSecondPriceMarket.maximum_bid_by_side`
(`src/market/equal_second_price_auction.py`, lines 69-83):
sort the individual payments in descending order, form the candidate totals
`sorted[i] * (i + 1)`, and take their maximum.  Python's `max` raises
`ValueError` on an empty list, hence the `Option` result
(`List.max?` is `none` exactly on `[]`). -/
def maximum_bid_by_side (maximum_individual_payments : List ℚ) : Option ℚ :=
  let maximum_individual_payments_sorted :=
    List.insertionSort (fun a b => a ≥ b) maximum_individual_payments
  let candidate_total_payments :=
    (List.range maximum_individual_payments_sorted.length).map
      (fun i => maximum_individual_payments_sorted.getD i 0 * ((i : ℚ) + 1))
  candidate_total_payments.max?

/-- The k-th largest entry of a list (1-indexed), read off the
descending-sorted list; used to state the specification's description of
`maximum_bid_by_side`. -/
def kth_largest (xs : List ℚ) (k : ℕ) : ℚ :=
  (List.insertionSort (fun a b => a ≥ b) xs).getD (k - 1) 0

/-- The empty payment dict `{}`. -/
def no_payments : Cluster → Option ℚ := fun _ => none

/-- Python dict assignment `d[c] = v`. -/
def set_payment (d : Cluster → Option ℚ) (c : Cluster) (v : ℚ) :
    Cluster → Option ℚ :=
  fun x => if x = c then some v else d x

/-- The payment-collection loops of `_determine_auction_winner`
(lines 132-146): every cluster of the winning side with a non-`None` standing
bid pays its own `willing_to_pay`; clusters with no bid pay `0`. -/
def payments_for_side (standing_bids : Cluster → Option EqualSecondPriceBid)
    (side : List Cluster) : Cluster → Option ℚ :=
  side.foldl
    (fun d c =>
      set_payment d c
        (match standing_bids c with
         | some b => b.willing_to_pay
         | none => 0))
    no_payments

/-- The list `miss_side_bid_values` built in `_determine_auction_winner`
(line 121): the `willing_to_pay` of each non-`None` standing bid of the miss
side. -/
def miss_side_values (standing_bids : Cluster → Option EqualSecondPriceBid)
    (miss_side : List Cluster) : List ℚ :=
  ((miss_side.map standing_bids).filterMap id).map (·.willing_to_pay)

/-- The list passed to `maximum_bid_by_side` for the reveal side in
`_determine_auction_winner` (lines 114, 120, 124): the standing bids of the
reveal side with the last proposer's bid appended, `None`s dropped, mapped to
`willing_to_pay`, and the proposer's `valuation_of_own_slots` appended. -/
def reveal_side_values (standing_bids : Cluster → Option EqualSecondPriceBid)
    (reveal_side : List Cluster) (last_proposer_bid : EqualSecondPriceBid) :
    List ℚ :=
  (((reveal_side.map standing_bids) ++ [some last_proposer_bid]).filterMap
      id).map (·.willing_to_pay)
    ++ [last_proposer_bid.valuation_of_own_slots]

/-- Embeds `EqualSecondPriceMarket._determine_auction_winner`
(`src/market/equal_second_price_auction.py`, lines 85-147).
Returns `none` where the Python code would raise (only possible through
`max([])` inside `maximum_bid_by_side` when the miss side holds no non-`None`
bids; the reveal-side list is never empty because the proposer's valuation is
appended). -/
def determine_auction_winner
    (standing_bids : Cluster → Option EqualSecondPriceBid)
    (reveal_side miss_side : List Cluster) (last_slot_proposer : Cluster) :
    Option (String × (Cluster → Option ℚ)) :=
  match standing_bids last_slot_proposer with
  | none => some ("reveal", no_payments)
  | some last_proposer_bid =>
    if last_proposer_bid.willing_to_receive_bribes = false then
      some ("reveal", no_payments)
    else
      match maximum_bid_by_side (miss_side_values standing_bids miss_side),
        maximum_bid_by_side
          (reveal_side_values standing_bids reveal_side last_proposer_bid) with
      | some maximum_miss_side_collective_bid,
        some maximum_reveal_side_collective_bid =>
        let should_reveal : Bool :=
          maximum_reveal_side_collective_bid + last_proposer_bid.minimum_gain
            > maximum_miss_side_collective_bid
        if should_reveal then
          some ("reveal", payments_for_side standing_bids reveal_side)
        else
          some ("miss", payments_for_side standing_bids miss_side)
      | _, _ => none

/-- Helper: `l.getD i 0` is `l[i]` when the index is in range. -/
lemma getD_eq_getElem_of_lt (l : List ℚ) (i : ℕ) (h : i < l.length) :
    l.getD i 0 = l[i] := by
  simp [List.getD_eq_getElem?_getD, List.getElem?_eq_getElem h]

/-- Helper: Python's `max` on a non-empty list (`List.max?`) returns an
element that bounds every element. -/
lemma max?_spec_of_ne_nil {l : List ℚ} (h : l ≠ []) :
    ∃ m, l.max? = some m ∧ m ∈ l ∧ ∀ b ∈ l, b ≤ m := by
  haveI : Std.Antisymm ((· : ℚ) ≤ ·) := ⟨fun h1 h2 => le_antisymm h1 h2⟩
  cases hmax : l.max? with
  | none => exact absurd (List.max?_eq_none_iff.mp hmax) h
  | some m =>
    have hm := (List.max?_eq_some_iff (fun a => le_refl a)
      (fun a b => max_choice a b) (fun a b c => max_le_iff)).mp hmax
    exact ⟨m, rfl, hm.1, hm.2⟩

/-- Helper: characterization of `maximum_bid_by_side` on a non-empty list as
the maximum of the candidate totals read off the descending-sorted list. -/
lemma maximum_bid_by_side_spec (xs : List ℚ) (h : xs ≠ []) :
    ∃ m, maximum_bid_by_side xs = some m ∧
      (∃ i, i < xs.length ∧
        m = (List.insertionSort (fun a b => a ≥ b) xs).getD i 0 * ((i : ℚ) + 1)) ∧
      (∀ i, i < xs.length →
        (List.insertionSort (fun a b => a ≥ b) xs).getD i 0 * ((i : ℚ) + 1) ≤ m) := by
  have hlen : (List.insertionSort (fun a b => a ≥ b) xs).length = xs.length :=
    List.length_insertionSort _ _
  have hne : ((List.range (List.insertionSort (fun a b => a ≥ b) xs).length).map
      (fun i => (List.insertionSort (fun a b => a ≥ b) xs).getD i 0 * ((i : ℚ) + 1))) ≠ [] := by
    simp only [ne_eq, List.map_eq_nil_iff, List.range_eq_nil, hlen]
    simpa using h
  obtain ⟨m, hmax, hmem, hub⟩ := max?_spec_of_ne_nil hne
  refine ⟨m, hmax, ?_, ?_⟩
  · obtain ⟨i, hi, hform⟩ := List.mem_map.mp hmem
    exact ⟨i, by simpa [hlen] using List.mem_range.mp hi, hform.symm⟩
  · intro i hi
    exact hub _ (List.mem_map.mpr ⟨i, List.mem_range.mpr (by simpa [hlen] using hi), rfl⟩)

/-- Helper: the descending-sorted list is pairwise `≥` by indices. -/
lemma sort_desc_rel (xs : List ℚ) {i j : ℕ} (hij : i ≤ j)
    (hi : i < (List.insertionSort (fun a b => a ≥ b) xs).length)
    (hj : j < (List.insertionSort (fun a b => a ≥ b) xs).length) :
    (List.insertionSort (fun a b => a ≥ b) xs)[j] ≤
      (List.insertionSort (fun a b => a ≥ b) xs)[i] := by
  have hs : List.Sorted (fun a b => a ≥ b) (List.insertionSort (fun a b => a ≥ b) xs) :=
    List.sorted_insertionSort _ xs
  rcases eq_or_lt_of_le hij with rfl | hlt
  · exact le_refl _
  · exact List.pairwise_iff_getElem.mp hs i j _ hj hlt

/-- C2: on a non-empty list, `maximum_bid_by_side` is the maximum over all
1-indexed prefix lengths `k` of (k-th largest entry) * k, and evaluates to
`6`, `4`, `4` on the spec's three examples. -/
theorem C2_maximum_bid_by_side_formula (xs : List ℚ) (h : xs ≠ []) :
    ∃ m, maximum_bid_by_side xs = some m ∧
      (∃ k, 1 ≤ k ∧ k ≤ xs.length ∧ m = kth_largest xs k * (k : ℚ)) ∧
      (∀ k, 1 ≤ k → k ≤ xs.length → kth_largest xs k * (k : ℚ) ≤ m) ∧
      maximum_bid_by_side [1, 2, 3, 4] = some 6 ∧
      maximum_bid_by_side [1, 1, 1, 1] = some 4 ∧
      maximum_bid_by_side [1, 2, 2] = some 4 := by
  obtain ⟨m, hmax, ⟨i, hi, hform⟩, hub⟩ := maximum_bid_by_side_spec xs h
  refine ⟨m, hmax, ⟨i + 1, by omega, by omega, ?_⟩, ?_, ?_, ?_, ?_⟩
  · simpa [kth_largest, Nat.cast_add] using hform
  · intro k hk1 hkn
    have hcast : ((k - 1 : ℕ) : ℚ) + 1 = (k : ℚ) := by
      have : (k - 1) + 1 = k := Nat.succ_pred_eq_of_pos hk1
      exact_mod_cast congrArg (Nat.cast : ℕ → ℚ) this
    have := hub (k - 1) (by omega)
    rwa [hcast] at this
  · norm_num [maximum_bid_by_side, List.insertionSort, List.orderedInsert,
      List.max?, List.range_succ, max_def]
  · norm_num [maximum_bid_by_side, List.insertionSort, List.orderedInsert,
      List.max?, List.range_succ, max_def]
  · norm_num [maximum_bid_by_side, List.insertionSort, List.orderedInsert,
      List.max?, List.range_succ, max_def]

/-- Witness for C2 at the concrete input `[1, 2, 3, 4]`. -/
theorem C2_maximum_bid_by_side_formula_witness :
    ∃ m, maximum_bid_by_side [1, 2, 3, 4] = some m ∧
      (∃ k, 1 ≤ k ∧ k ≤ ([1, 2, 3, 4] : List ℚ).length ∧
        m = kth_largest [1, 2, 3, 4] k * (k : ℚ)) ∧
      (∀ k, 1 ≤ k → k ≤ ([1, 2, 3, 4] : List ℚ).length →
        kth_largest [1, 2, 3, 4] k * (k : ℚ) ≤ m) ∧
      maximum_bid_by_side [1, 2, 3, 4] = some 6 ∧
      maximum_bid_by_side [1, 1, 1, 1] = some 4 ∧
      maximum_bid_by_side [1, 2, 2] = some 4 :=
  C2_maximum_bid_by_side_formula [1, 2, 3, 4] (by simp)

/-- C10: on a non-empty list, the collective bid is at least the largest
individual entry; if moreover all entries are non-negative, it is at most
their sum. -/
theorem C10_maximum_bid_by_side_bounds (xs : List ℚ) (h : xs ≠ []) :
    ∃ m, maximum_bid_by_side xs = some m ∧ (∀ x ∈ xs, x ≤ m) ∧
      ((∀ x ∈ xs, 0 ≤ x) → m ≤ xs.sum) := by
  obtain ⟨m, hmax, ⟨i, hi, hform⟩, hub⟩ := maximum_bid_by_side_spec xs h
  have hperm : (List.insertionSort (fun a b => a ≥ b) xs).Perm xs :=
    List.perm_insertionSort _ xs
  have hlen : (List.insertionSort (fun a b => a ≥ b) xs).length = xs.length :=
    List.length_insertionSort _ _
  refine ⟨m, hmax, ?_, ?_⟩
  · intro x hx
    have hxs : x ∈ List.insertionSort (fun a b => a ≥ b) xs := hperm.mem_iff.mpr hx
    obtain ⟨j, hj, rfl⟩ := List.mem_iff_getElem.mp hxs
    have h0 : 0 < (List.insertionSort (fun a b => a ≥ b) xs).length := by
      omega
    have hle := sort_desc_rel xs (Nat.zero_le j) h0 hj
    have hcand := hub 0 (by omega)
    rw [getD_eq_getElem_of_lt _ _ h0] at hcand
    calc (List.insertionSort (fun a b => a ≥ b) xs)[j]
        ≤ (List.insertionSort (fun a b => a ≥ b) xs)[0] := hle
      _ ≤ m := by simpa using hcand
  · intro hnn
    set s := List.insertionSort (fun a b => a ≥ b) xs with hs
    have hi2 : i < s.length := by omega
    rw [getD_eq_getElem_of_lt _ _ hi2] at hform
    have htake_mem : ∀ x ∈ s.take (i + 1), s[i] ≤ x := by
      intro x hx
      obtain ⟨j, hj, rfl⟩ := List.mem_iff_getElem.mp hx
      have hjlen : j < s.length := by
        have := hj; simp only [List.length_take] at this; omega
      have hji : j ≤ i := by
        have := hj; simp only [List.length_take] at this; omega
      have := sort_desc_rel xs hji hjlen hi2
      simpa using this
    have htake_len : (s.take (i + 1)).length = i + 1 := by
      simp [List.length_take]; omega
    have hsum1 : ((i + 1 : ℕ) : ℚ) * s[i] ≤ (s.take (i + 1)).sum := by
      have := List.card_nsmul_le_sum (s.take (i + 1)) (s[i]) htake_mem
      rwa [htake_len, nsmul_eq_mul] at this
    have hdrop_nonneg : (0 : ℚ) ≤ (s.drop (i + 1)).sum := by
      have : ∀ x ∈ s.drop (i + 1), (0 : ℚ) ≤ x := by
        intro x hx
        exact hnn x (hperm.mem_iff.mp (List.mem_of_mem_drop hx))
      have := List.card_nsmul_le_sum (s.drop (i + 1)) 0 this
      simpa using this
    have hsplit : (s.take (i + 1)).sum + (s.drop (i + 1)).sum = s.sum := by
      rw [← List.sum_append, List.take_append_drop]
    have hsum_eq : s.sum = xs.sum := hperm.sum_eq
    have hm : m = ((i + 1 : ℕ) : ℚ) * s[i] := by
      rw [hform]; push_cast; ring
    rw [hm]
    calc ((i + 1 : ℕ) : ℚ) * s[i] ≤ (s.take (i + 1)).sum := hsum1
      _ ≤ s.sum := by linarith [hdrop_nonneg, hsplit]
      _ = xs.sum := hsum_eq

/-- Witness for C10 at the concrete input `[1, 2, 2]`. -/
theorem C10_maximum_bid_by_side_bounds_witness :
    ∃ m, maximum_bid_by_side [1, 2, 2] = some m ∧
      (∀ x ∈ ([1, 2, 2] : List ℚ), x ≤ m) ∧
      ((∀ x ∈ ([1, 2, 2] : List ℚ), 0 ≤ x) → m ≤ ([1, 2, 2] : List ℚ).sum) :=
  C10_maximum_bid_by_side_bounds [1, 2, 2] (by simp)

/-- C1 (amended): with a non-`None` bribe-accepting proposer bid and both
collective bids defined, the decision is `reveal` iff the reveal side's
collective bid plus the proposer's `minimum_gain` is STRICTLY greater than
the miss side's collective bid (the source uses `>` at line 128, not `≥`). -/
theorem C1_decision_rule (standing_bids : Cluster → Option EqualSecondPriceBid)
    (reveal_side miss_side : List Cluster) (last_slot_proposer : Cluster)
    (b : EqualSecondPriceBid)
    (hb : standing_bids last_slot_proposer = some b)
    (hw : b.willing_to_receive_bribes = true) (mmax rmax : ℚ)
    (hm : maximum_bid_by_side (miss_side_values standing_bids miss_side) = some mmax)
    (hr : maximum_bid_by_side (reveal_side_values standing_bids reveal_side b) = some rmax) :
    (determine_auction_winner standing_bids reveal_side miss_side
        last_slot_proposer).map Prod.fst =
      some (if rmax + b.minimum_gain > mmax then "reveal" else "miss") := by
  by_cases hc : rmax + b.minimum_gain > mmax <;>
    simp [determine_auction_winner, hb, hw, hm, hr, hc]

/-- Witness for C1 at a concrete tie input (decision `miss`). -/
theorem C1_decision_rule_witness :
    (determine_auction_winner
        (fun c => if c = 0 then
          some { willing_to_pay := 0, willing_to_receive_bribes := true,
                 reputation_value := 0 } else none)
        [] [0] 0).map Prod.fst =
      some (if (0 : ℚ) + EqualSecondPriceBid.minimum_gain
          { willing_to_pay := 0, willing_to_receive_bribes := true,
            reputation_value := 0 } > 0 then "reveal" else "miss") := by
  refine C1_decision_rule _ [] [0] 0 _ rfl rfl 0 0 ?_ ?_ <;>
    norm_num [maximum_bid_by_side, miss_side_values, reveal_side_values,
      EqualSecondPriceBid.valuation_of_own_slots, List.insertionSort,
      List.orderedInsert, List.max?, List.range_succ, max_def]

/-- C1 counterexample: at a tie (reveal collective bid + minimum_gain =
miss collective bid, both `0`) the code decides `miss`, while the claim's
`≥` rule would decide `reveal`. -/
theorem C1_counterexample :
    (fun c => if c = 0 then
        some { willing_to_pay := 0, willing_to_receive_bribes := true,
               reputation_value := 0 } else none : Cluster → Option EqualSecondPriceBid) 0 =
      some { willing_to_pay := 0, willing_to_receive_bribes := true,
             reputation_value := 0 } ∧
    EqualSecondPriceBid.willing_to_receive_bribes
      { willing_to_pay := 0, willing_to_receive_bribes := true,
        reputation_value := 0 } = true ∧
    maximum_bid_by_side (reveal_side_values
      (fun c => if c = 0 then
        some { willing_to_pay := 0, willing_to_receive_bribes := true,
               reputation_value := 0 } else none)
      []
      { willing_to_pay := 0, willing_to_receive_bribes := true,
        reputation_value := 0 }) = some 0 ∧
    maximum_bid_by_side (miss_side_values
      (fun c => if c = 0 then
        some { willing_to_pay := 0, willing_to_receive_bribes := true,
               reputation_value := 0 } else none) [0]) = some 0 ∧
    (0 : ℚ) + EqualSecondPriceBid.minimum_gain
      { willing_to_pay := 0, willing_to_receive_bribes := true,
        reputation_value := 0 } ≥ 0 ∧
    (determine_auction_winner
      (fun c => if c = 0 then
        some { willing_to_pay := 0, willing_to_receive_bribes := true,
               reputation_value := 0 } else none)
      [] [0] 0).map Prod.fst = some "miss" := by
  refine ⟨rfl, rfl, ?_, ?_, ?_, ?_⟩ <;>
    norm_num [determine_auction_winner, maximum_bid_by_side, miss_side_values,
      reveal_side_values, EqualSecondPriceBid.valuation_of_own_slots,
      EqualSecondPriceBid.minimum_gain, List.insertionSort, List.orderedInsert,
      List.max?, List.range_succ, max_def]

/-- C5: if the proposer's standing bid is `None` or declines bribes, the
decision is `reveal` with the empty payment map, for every pair of sides. -/
theorem C5_early_exit (standing_bids : Cluster → Option EqualSecondPriceBid)
    (reveal_side miss_side : List Cluster) (last_slot_proposer : Cluster)
    (h : standing_bids last_slot_proposer = none ∨
      ∃ b, standing_bids last_slot_proposer = some b ∧
        b.willing_to_receive_bribes = false) :
    determine_auction_winner standing_bids reveal_side miss_side
      last_slot_proposer = some ("reveal", no_payments) := by
  rcases h with h | ⟨b, hb, hw⟩
  · simp [determine_auction_winner, h]
  · simp [determine_auction_winner, hb, hw]

/-- Witness for C5: a proposer with no standing bid. -/
theorem C5_early_exit_witness :
    determine_auction_winner (fun _ => none) [1, 2] [3] 0 =
      some ("reveal", no_payments) :=
  C5_early_exit (fun _ => none) [1, 2] [3] 0 (Or.inl rfl)

/-- Embeds the `Balance` dataclass (`src/market/market.py`, lines 14-70),
with the `@dataclass` field defaults. -/
@[ext]
structure Balance where
  payed : ℚ := 0
  received : ℚ := 0
  capital_locked : ℚ := 0
  capital_cost : ℚ := 0
  transaction_costs : ℚ := 0
  extra_slot_earnings : ℚ := 0
  extra_slot_costs : ℚ := 0
  reputation : ℚ := 0
  reputation_factor : ℚ := 1
  participated : Bool := false
deriving DecidableEq

/-- The `reputation_cost` property of `Balance`. -/
def Balance.reputation_cost (b : Balance) : ℚ := b.reputation * b.reputation_factor

/-- The `total_balance` property of `Balance`. -/
def Balance.total_balance (b : Balance) : ℚ :=
  b.received - b.payed - b.capital_cost - b.transaction_costs
    + b.extra_slot_earnings - b.extra_slot_costs - b.reputation_cost

/-- Embeds `Market.make_payment` (`src/market/market.py`, lines 107-122).
The four `assert` statements are modelled by the `Option` result: `none`
exactly when one of them fails.  The two increments are performed
sequentially (so a self-payment hits the same balance twice, as in Python). -/
def make_payment (participants : List Cluster) (balance_sheets : Cluster → Balance)
    (sender receiver : Cluster) (amount : ℚ) : Option (Cluster → Balance) :=
  if sender ∈ participants ∧ receiver ∈ participants ∧ amount ≥ 0 ∧
      (balance_sheets sender).participated = true ∧
      (balance_sheets receiver).participated = true then
    let bs1 := fun c => if c = sender then
      { balance_sheets c with payed := (balance_sheets c).payed + amount }
      else balance_sheets c
    some (fun c => if c = receiver then
      { bs1 c with received := (bs1 c).received + amount } else bs1 c)
  else none

/-- Embeds the bribe-payment loop of `Runner.process_market`
(`src/market/runner.py`, lines 166-169): for every `(payer, amount)` item of
the payments dict, increment the payer's `payed` and the bribe taker's
`received` directly on the balance sheets, with no asserts. -/
def pay_one_bribe (bs : Cluster → Balance) (bribe_taker : Cluster)
    (pa : Cluster × ℚ) : Cluster → Balance :=
  let bs1 := fun c => if c = pa.1 then
    { bs c with payed := (bs c).payed + pa.2 } else bs c
  fun c => if c = bribe_taker then
    { bs1 c with received := (bs1 c).received + pa.2 } else bs1 c

def pay_bribes (balance_sheets : Cluster → Balance) (bribe_taker : Cluster)
    (payments : List (Cluster × ℚ)) : Cluster → Balance :=
  payments.foldl (fun bs pa => pay_one_bribe bs bribe_taker pa) balance_sheets

/-- Lookup in a Python dict modelled as an association list with unique keys
(first match). -/
def dlookup : List (Cluster × ℤ) → Cluster → Option ℤ
  | [], _ => none
  | (k, v) :: rest, c => if c = k then some v else dlookup rest c

/-- The key list of a dict. -/
def dkeys (d : List (Cluster × ℤ)) : List Cluster := d.map Prod.fst

/-- Python dict assignment `d[k] = v`: overwrite if the key is present,
append a new entry otherwise. -/
def dset (d : List (Cluster × ℤ)) (k : Cluster) (v : ℤ) : List (Cluster × ℤ) :=
  if k ∈ dkeys d then d.map (fun p => if p.1 = k then (p.1, v) else p)
  else d ++ [(k, v)]

/-- Python `d[k] += delta` on an existing key (the runner only applies it to
keys created by the initializing comprehension). -/
def dadd (d : List (Cluster × ℤ)) (k : Cluster) (delta : ℤ) : List (Cluster × ℤ) :=
  d.map (fun p => if p.1 = k then (p.1, p.2 + delta) else p)

/-- The comprehension `{c: 0 for c in miss_side + reveal_side}`
(`src/market/runner.py`, line 172). -/
def dinit_zero (cs : List Cluster) : List (Cluster × ℤ) :=
  cs.foldl (fun d c => dset d c 0) []

/-- Embeds the `net_slots` computation and next-proposer selection of
`Runner.process_market` (`src/market/runner.py`, lines 170-188).
Returns the final `net_slots` dict and `next_last_slot_proposer`; `none`
models the `IndexError` of `side[-1]` on an empty side and the
`RuntimeError` for a decision outside reveal/miss. -/
def net_slots_after (winner : String) (bribe_taker : Cluster)
    (reveal_side miss_side : List Cluster) :
    Option (List (Cluster × ℤ) × Cluster) :=
  let net0 := dinit_zero (miss_side ++ reveal_side)
  if winner = "miss" then
    match miss_side.getLast? with
    | none => none
    | some next_last_slot_proposer =>
      let net1 := dset net0 bribe_taker (-1)
      let net2 := miss_side.foldl (fun d c => dadd d c 1) net1
      let net3 := reveal_side.foldl (fun d c => dadd d c (-1)) net2
      some (net3, next_last_slot_proposer)
  else if winner = "reveal" then
    match reveal_side.getLast? with
    | none => none
    | some next_last_slot_proposer => some (net0, next_last_slot_proposer)
  else none

/-- Embeds the slot-accounting loop of `Runner.process_market`
(`src/market/runner.py`, lines 190-195): for each `(c, slots)` item of
`net_slots`, a positive count adds `slots * proposer_slot_value` to
`extra_slot_earnings`; a negative one subtracts `slots * proposer_slot_value`
from `extra_slot_costs` (i.e. adds its absolute value). -/
def apply_one_net_slot (bs : Cluster → Balance) (p : Cluster × ℤ)
    (proposer_slot_value : ℚ) : Cluster → Balance :=
  if 0 < p.2 then
    fun c => if c = p.1 then
      { bs c with extra_slot_earnings :=
          (bs c).extra_slot_earnings + (p.2 : ℚ) * proposer_slot_value }
      else bs c
  else if p.2 < 0 then
    fun c => if c = p.1 then
      { bs c with extra_slot_costs :=
          (bs c).extra_slot_costs - (p.2 : ℚ) * proposer_slot_value }
      else bs c
  else bs

def apply_net_slots (balance_sheets : Cluster → Balance)
    (net_slots : List (Cluster × ℤ)) (proposer_slot_value : ℚ) :
    Cluster → Balance :=
  net_slots.foldl (fun bs p => apply_one_net_slot bs p proposer_slot_value)
    balance_sheets

/-- Helper: lookup misses exactly the absent keys. -/
lemma dlookup_eq_none_iff (d : List (Cluster × ℤ)) (x : Cluster) :
    dlookup d x = none ↔ x ∉ dkeys d := by
  induction d with
  | nil => simp [dlookup, dkeys]
  | cons p t ih =>
    obtain ⟨k, v⟩ := p
    by_cases hxk : x = k <;> simp [dlookup, dkeys, hxk] at ih ⊢
    exact ih

/-- Helper: lookup across an append. -/
lemma dlookup_append (d1 d2 : List (Cluster × ℤ)) (x : Cluster) :
    dlookup (d1 ++ d2) x =
      match dlookup d1 x with
      | some v => some v
      | none => dlookup d2 x := by
  induction d1 with
  | nil => simp [dlookup]
  | cons p t ih =>
    obtain ⟨k, v⟩ := p
    by_cases hxk : x = k <;> simp [dlookup, hxk, ih]

/-- Helper: a map that only rewrites values, keyed on the entry's own key. -/
lemma dlookup_map_val (g : Cluster × ℤ → ℤ) (d : List (Cluster × ℤ)) (x : Cluster) :
    dlookup (d.map (fun p => (p.1, g p))) x =
      (dlookup d x).map (fun v => g (x, v)) := by
  induction d with
  | nil => simp [dlookup]
  | cons p t ih =>
    obtain ⟨a, b⟩ := p
    by_cases hxa : x = a
    · subst hxa
      simp [dlookup]
    · simp [dlookup, hxa, ih]

/-- Helper: the overwrite map of `dset`, as a value-only map. -/
lemma overwrite_fun_eq (k : Cluster) (v : ℤ) :
    (fun p : Cluster × ℤ => if p.1 = k then (p.1, v) else p) =
      (fun p : Cluster × ℤ => (p.1, if p.1 = k then v else p.2)) := by
  funext p
  by_cases h : p.1 = k <;> simp [h]

/-- Helper: the update map of `dadd`, as a value-only map. -/
lemma dadd_fun_eq (k : Cluster) (delta : ℤ) :
    (fun p : Cluster × ℤ => if p.1 = k then (p.1, p.2 + delta) else p) =
      (fun p : Cluster × ℤ => (p.1, if p.1 = k then p.2 + delta else p.2)) := by
  funext p
  by_cases h : p.1 = k <;> simp [h]

/-- Helper: lookup after Python dict assignment. -/
lemma dlookup_dset (d : List (Cluster × ℤ)) (k : Cluster) (v : ℤ) (x : Cluster) :
    dlookup (dset d k v) x = if x = k then some v else dlookup d x := by
  unfold dset
  by_cases hk : k ∈ dkeys d <;> simp only [hk, if_true, if_false]
  · rw [overwrite_fun_eq, dlookup_map_val]
    by_cases hxk : x = k
    · subst hxk
      obtain ⟨w, hw⟩ : ∃ w, dlookup d x = some w := by
        cases hd : dlookup d x with
        | none => exact absurd ((dlookup_eq_none_iff d x).mp hd) (by simpa using hk)
        | some w => exact ⟨w, rfl⟩
      simp [hw]
    · cases hd : dlookup d x <;> simp [hxk, hd]
  · rw [dlookup_append]
    by_cases hxk : x = k
    · subst hxk
      rw [(dlookup_eq_none_iff d x).mpr (by simpa using hk)]
      simp [dlookup]
    · cases hd : dlookup d x <;> simp [hxk, hd, dlookup]

/-- Helper: lookup after `d[k] += delta`. -/
lemma dlookup_dadd (d : List (Cluster × ℤ)) (k : Cluster) (delta : ℤ) (x : Cluster) :
    dlookup (dadd d k delta) x =
      if x = k then (dlookup d x).map (· + delta) else dlookup d x := by
  unfold dadd
  rw [dadd_fun_eq, dlookup_map_val]
  by_cases hxk : x = k
  · subst hxk
    cases hd : dlookup d x <;> simp
  · cases hd : dlookup d x <;> simp [hxk]

/-- Helper: lookup after the `+= delta` loop over a side. -/
lemma dlookup_fold_add (side : List Cluster) (d : List (Cluster × ℤ))
    (delta : ℤ) (x : Cluster) :
    dlookup (side.foldl (fun d c => dadd d c delta) d) x =
      (dlookup d x).map (· + (side.count x : ℤ) * delta) := by
  induction side generalizing d with
  | nil =>
    cases hd : dlookup d x <;> simp [hd]
  | cons c side ih =>
    rw [List.foldl_cons, ih, dlookup_dadd]
    by_cases hxc : x = c
    · subst hxc
      cases hd : dlookup d x <;> simp [List.count_cons_self] <;> ring
    · simp [hxc, List.count_cons_of_ne hxc]
/-- Helper: lookup in the zero-initialising comprehension. -/
lemma dlookup_dinit_zero (cs : List Cluster) (x : Cluster) :
    dlookup (dinit_zero cs) x = if x ∈ cs then some 0 else none := by
  suffices h : ∀ d, dlookup (cs.foldl (fun d c => dset d c 0) d) x =
      if x ∈ cs then some 0 else dlookup d x by
    simpa [dinit_zero, dlookup] using h []
  induction cs with
  | nil => intro d; simp
  | cons c cs ih =>
    intro d
    rw [List.foldl_cons, ih, dlookup_dset]
    by_cases hxc : x = c
    · subst hxc
      by_cases hx : x ∈ cs <;> simp [hx]
    · by_cases hx : x ∈ cs <;> simp [hx, hxc]

/-- Helper: `dadd` preserves the key list. -/
lemma dkeys_dadd (d : List (Cluster × ℤ)) (k : Cluster) (delta : ℤ) :
    dkeys (dadd d k delta) = dkeys d := by
  rw [dadd, dadd_fun_eq]
  simp [dkeys, Function.comp]

/-- Helper: the `+= delta` loop preserves the key list. -/
lemma dkeys_fold_add (side : List Cluster) (d : List (Cluster × ℤ)) (delta : ℤ) :
    dkeys (side.foldl (fun d c => dadd d c delta) d) = dkeys d := by
  induction side generalizing d with
  | nil => rfl
  | cons c side ih => rw [List.foldl_cons, ih, dkeys_dadd]

/-- Helper: key list after Python dict assignment. -/
lemma dkeys_dset (d : List (Cluster × ℤ)) (k : Cluster) (v : ℤ) :
    dkeys (dset d k v) = if k ∈ dkeys d then dkeys d else dkeys d ++ [k] := by
  by_cases hk : k ∈ dkeys d <;> simp only [dset, hk, if_true, if_false]
  · rw [overwrite_fun_eq]
    simp [dkeys, Function.comp]
  · simp [dkeys]

/-- Helper: `dset` preserves distinctness of keys. -/
lemma nodup_dkeys_dset (d : List (Cluster × ℤ)) (k : Cluster) (v : ℤ)
    (h : (dkeys d).Nodup) : (dkeys (dset d k v)).Nodup := by
  rw [dkeys_dset]
  by_cases hk : k ∈ dkeys d <;> simp [hk, h, List.nodup_append]

/-- Helper: the zero-initialising comprehension has distinct keys. -/
lemma nodup_dkeys_dinit_zero (cs : List Cluster) : (dkeys (dinit_zero cs)).Nodup := by
  suffices h : ∀ d, (dkeys d).Nodup →
      (dkeys (cs.foldl (fun d c => dset d c 0) d)).Nodup by
    exact h [] (by simp [dkeys])
  induction cs with
  | nil => intro d hd; simpa using hd
  | cons c cs ih =>
    intro d hd
    exact ih _ (nodup_dkeys_dset d c 0 hd)

/-- Helper: one step of the slot-accounting loop, pointwise. -/
lemma apply_one_net_slot_eq (bs : Cluster → Balance) (p : Cluster × ℤ)
    (psv : ℚ) (x : Cluster) :
    apply_one_net_slot bs p psv x =
      (if x = p.1 then
        (if 0 < p.2 then
          { bs x with extra_slot_earnings :=
              (bs x).extra_slot_earnings + (p.2 : ℚ) * psv }
        else if p.2 < 0 then
          { bs x with extra_slot_costs :=
              (bs x).extra_slot_costs - (p.2 : ℚ) * psv }
        else bs x)
      else bs x) := by
  unfold apply_one_net_slot
  by_cases h1 : 0 < p.2 <;> by_cases h2 : p.2 < 0 <;> by_cases hx : x = p.1 <;>
    simp [h1, h2, hx]

/-- Helper: the slot-accounting loop applied to a dict with distinct keys,
pointwise. -/
lemma apply_net_slots_eq (d : List (Cluster × ℤ)) (hnd : (dkeys d).Nodup)
    (bs : Cluster → Balance) (psv : ℚ) (x : Cluster) :
    apply_net_slots bs d psv x =
      match dlookup d x with
      | some delta =>
        if 0 < delta then
          { bs x with extra_slot_earnings :=
              (bs x).extra_slot_earnings + (delta : ℚ) * psv }
        else if delta < 0 then
          { bs x with extra_slot_costs :=
              (bs x).extra_slot_costs - (delta : ℚ) * psv }
        else bs x
      | none => bs x := by
  induction d generalizing bs with
  | nil => simp [apply_net_slots, dlookup]
  | cons p t ih =>
    have hnd2 : (p.1 :: dkeys t).Nodup := hnd
    obtain ⟨hk, hndt⟩ := List.nodup_cons.mp hnd2
    have hrec : apply_net_slots bs (p :: t) psv =
        apply_net_slots (apply_one_net_slot bs p psv) t psv := rfl
    rw [hrec, ih hndt]
    obtain ⟨a, b⟩ := p
    by_cases hx : x = a
    · subst hx
      rw [(dlookup_eq_none_iff t x).mpr hk]
      rw [apply_one_net_slot_eq]
      simp [dlookup]
    · have hstep := apply_one_net_slot_eq bs (a, b) psv x
      simp only [dlookup, if_neg hx]
      cases ht : dlookup t x <;> simp [hstep, hx]
/-- C4: in the `miss` case the proposer's slot delta starts at `-1`, each
occurrence in `miss_side` adds `+1`, each occurrence in `reveal_side` adds
`-1`, the next proposer is the last element of `miss_side`, and a positive
(negative) delta credits `extra_slot_earnings` (debits `extra_slot_costs`)
by `|delta| * proposer_slot_value`; in the `reveal` case every delta is `0`,
balances are unchanged, and the next proposer is the last element of
`reveal_side`. -/
theorem C4_slot_accounting (bribe_taker : Cluster)
    (reveal_side miss_side : List Cluster) (bs : Cluster → Balance) (psv : ℚ)
    (hm : miss_side ≠ []) (hr : reveal_side ≠ []) :
    (∃ net, net_slots_after "miss" bribe_taker reveal_side miss_side =
        some (net, miss_side.getLast hm) ∧
      (∀ c, dlookup net c =
        if c ∈ miss_side ++ reveal_side ∨ c = bribe_taker then
          some ((if c = bribe_taker then -1 else 0)
            + (miss_side.count c : ℤ) - (reveal_side.count c : ℤ))
        else none) ∧
      (∀ c, apply_net_slots bs net psv c =
        if 0 < ((if c = bribe_taker then -1 else 0)
            + (miss_side.count c : ℤ) - (reveal_side.count c : ℤ)) then
          { bs c with extra_slot_earnings := (bs c).extra_slot_earnings
              + (((if c = bribe_taker then -1 else 0)
                + (miss_side.count c : ℤ) - (reveal_side.count c : ℤ) : ℤ) : ℚ) * psv }
        else if ((if c = bribe_taker then -1 else 0)
            + (miss_side.count c : ℤ) - (reveal_side.count c : ℤ)) < 0 then
          { bs c with extra_slot_costs := (bs c).extra_slot_costs
              + (-((if c = bribe_taker then -1 else 0)
                + (miss_side.count c : ℤ) - (reveal_side.count c : ℤ) : ℤ) : ℚ) * psv }
        else bs c)) ∧
    (∃ net, net_slots_after "reveal" bribe_taker reveal_side miss_side =
        some (net, reveal_side.getLast hr) ∧
      (∀ c, dlookup net c =
        if c ∈ miss_side ++ reveal_side then some 0 else none) ∧
      (∀ c, apply_net_slots bs net psv c = bs c)) := by
  constructor
  · refine ⟨reveal_side.foldl (fun d c => dadd d c (-1))
      (miss_side.foldl (fun d c => dadd d c 1)
        (dset (dinit_zero (miss_side ++ reveal_side)) bribe_taker (-1))), ?_, ?_, ?_⟩
    · simp [net_slots_after, List.getLast?_eq_getLast miss_side hm]
    · intro c
      rw [dlookup_fold_add, dlookup_fold_add, dlookup_dset, dlookup_dinit_zero]
      by_cases hbt : c = bribe_taker <;> by_cases hmem : c ∈ miss_side ++ reveal_side <;>
        simp only [hbt, hmem, if_true, if_false, or_true, or_false, true_or,
          false_or, Option.map_map, Option.map_some', Option.map_none'] <;>
        first
          | (congr 1; push_cast; ring)
          | rfl
    · intro c
      have hlook : ∀ x, dlookup (reveal_side.foldl (fun d c => dadd d c (-1))
          (miss_side.foldl (fun d c => dadd d c 1)
            (dset (dinit_zero (miss_side ++ reveal_side)) bribe_taker (-1)))) x =
          if x ∈ miss_side ++ reveal_side ∨ x = bribe_taker then
            some ((if x = bribe_taker then -1 else 0)
              + (miss_side.count x : ℤ) - (reveal_side.count x : ℤ))
          else none := by
        intro x
        rw [dlookup_fold_add, dlookup_fold_add, dlookup_dset, dlookup_dinit_zero]
        by_cases hbt : x = bribe_taker <;> by_cases hmem : x ∈ miss_side ++ reveal_side <;>
          simp only [hbt, hmem, if_true, if_false, or_true, or_false, true_or,
            false_or, Option.map_map, Option.map_some', Option.map_none'] <;>
          first
            | (congr 1; push_cast; ring)
            | rfl
      have hnd : (dkeys (reveal_side.foldl (fun d c => dadd d c (-1))
          (miss_side.foldl (fun d c => dadd d c 1)
            (dset (dinit_zero (miss_side ++ reveal_side)) bribe_taker (-1))))).Nodup := by
        rw [dkeys_fold_add, dkeys_fold_add]
        exact nodup_dkeys_dset _ _ _ (nodup_dkeys_dinit_zero _)
      rw [apply_net_slots_eq _ hnd, hlook c]
      by_cases hcond : c ∈ miss_side ++ reveal_side ∨ c = bribe_taker
      · simp only [hcond, if_true]
        by_cases h1 : 0 < ((if c = bribe_taker then -1 else 0)
            + (miss_side.count c : ℤ) - (reveal_side.count c : ℤ)) <;>
          by_cases h2 : ((if c = bribe_taker then -1 else 0)
            + (miss_side.count c : ℤ) - (reveal_side.count c : ℤ)) < 0 <;>
          simp only [h1, h2, if_true, if_false] <;>
          first
            | (congr 1; push_cast; ring)
            | rfl
      · simp only [hcond, if_false]
        push_neg at hcond
        have hc0 : ((if c = bribe_taker then -1 else 0)
            + (miss_side.count c : ℤ) - (reveal_side.count c : ℤ)) = 0 := by
          have h1 : miss_side.count c = 0 := by
            rw [List.count_eq_zero]
            intro hmm
            exact hcond.1 (List.mem_append.mpr (Or.inl hmm))
          have h2 : reveal_side.count c = 0 := by
            rw [List.count_eq_zero]
            intro hmm
            exact hcond.1 (List.mem_append.mpr (Or.inr hmm))
          simp [h1, h2, hcond.2]
        rw [hc0]
        simp
  · refine ⟨dinit_zero (miss_side ++ reveal_side), ?_, ?_, ?_⟩
    · simp [net_slots_after, List.getLast?_eq_getLast reveal_side hr]
    · intro c
      exact dlookup_dinit_zero _ c
    · intro c
      rw [apply_net_slots_eq _ (nodup_dkeys_dinit_zero _), dlookup_dinit_zero]
      by_cases hmem : c ∈ miss_side ++ reveal_side <;> simp [hmem]

/-- Witness for C4 at a concrete input. -/
theorem C4_slot_accounting_witness :
    (∃ net, net_slots_after "miss" 0 [1] [2] =
        some (net, ([2] : List Cluster).getLast (by simp)) ∧
      (∀ c, dlookup net c =
        if c ∈ [2] ++ [1] ∨ c = 0 then
          some ((if c = 0 then -1 else 0)
            + (([2] : List Cluster).count c : ℤ) - (([1] : List Cluster).count c : ℤ))
        else none) ∧
      (∀ c, apply_net_slots (fun _ => {}) net 100 c =
        if 0 < ((if c = 0 then -1 else 0)
            + (([2] : List Cluster).count c : ℤ) - (([1] : List Cluster).count c : ℤ)) then
          { (fun _ => ({} : Balance)) c with extra_slot_earnings :=
              ((fun _ => ({} : Balance)) c).extra_slot_earnings
              + (((if c = 0 then -1 else 0)
                + (([2] : List Cluster).count c : ℤ)
                - (([1] : List Cluster).count c : ℤ) : ℤ) : ℚ) * 100 }
        else if ((if c = 0 then -1 else 0)
            + (([2] : List Cluster).count c : ℤ)
            - (([1] : List Cluster).count c : ℤ)) < 0 then
          { (fun _ => ({} : Balance)) c with extra_slot_costs :=
              ((fun _ => ({} : Balance)) c).extra_slot_costs
              + (-((if c = 0 then -1 else 0)
                + (([2] : List Cluster).count c : ℤ)
                - (([1] : List Cluster).count c : ℤ) : ℤ) : ℚ) * 100 }
        else (fun _ => ({} : Balance)) c)) ∧
    (∃ net, net_slots_after "reveal" 0 [1] [2] =
        some (net, ([1] : List Cluster).getLast (by simp)) ∧
      (∀ c, dlookup net c =
        if c ∈ [2] ++ [1] then some 0 else none) ∧
      (∀ c, apply_net_slots (fun _ => {}) net 100 c = (fun _ => ({} : Balance)) c)) :=
  C4_slot_accounting 0 [1] [2] (fun _ => {}) 100 (by simp) (by simp)

/-- Helper: one bribe payment, pointwise. -/
lemma pay_one_bribe_eq (bs : Cluster → Balance) (t : Cluster) (pa : Cluster × ℚ)
    (x : Cluster) :
    pay_one_bribe bs t pa x =
      { bs x with
        payed := (bs x).payed + (if x = pa.1 then pa.2 else 0),
        received := (bs x).received + (if x = t then pa.2 else 0) } := by
  unfold pay_one_bribe
  simp only []
  split_ifs with h1 h2 h3 <;> ext <;> simp_all

/-- Helper: the bribe-payment loop, pointwise — every payer's `payed` grows by
its own amounts, the bribe taker's `received` grows by the total, and no
other field changes. -/
lemma pay_bribes_eq (bs : Cluster → Balance) (t : Cluster)
    (pmts : List (Cluster × ℚ)) (x : Cluster) :
    pay_bribes bs t pmts x =
      { bs x with
        payed := (bs x).payed +
          ((pmts.filter (fun pa => pa.1 = x)).map Prod.snd).sum,
        received := (bs x).received +
          (if x = t then (pmts.map Prod.snd).sum else 0) } := by
  induction pmts generalizing bs with
  | nil =>
    simp only [pay_bribes, List.foldl_nil, List.filter_nil, List.map_nil,
      List.sum_nil, add_zero]
    ext <;> simp
  | cons pa rest ih =>
    have hrec : pay_bribes bs t (pa :: rest) =
        pay_bribes (pay_one_bribe bs t pa) t rest := rfl
    rw [hrec, ih, pay_one_bribe_eq]
    by_cases h1 : pa.1 = x
    · by_cases h2 : x = t <;> ext <;>
        simp [h1, h2, List.filter_cons] <;> ring
    · by_cases h2 : x = t
      · subst h2
        ext <;> simp [h1, Ne.symm h1, List.filter_cons] <;> ring
      · ext <;> simp [h1, Ne.symm h1, h2, List.filter_cons] <;> ring

/-- C3 (amended): the runner applies auction payments by directly
incrementing the payer's `payed` and the bribe taker's `received`, with no
participation or sign checks; `make_payment` itself succeeds exactly when
the amount is non-negative and both parties are participating participants,
and then increments the sender's `payed` and the receiver's `received`. -/
theorem C3_payment_application :
    (∀ (participants : List Cluster) (bs : Cluster → Balance) (s r : Cluster)
      (a : ℚ),
      ((make_payment participants bs s r a).isSome ↔
        (s ∈ participants ∧ r ∈ participants ∧ a ≥ 0 ∧
          (bs s).participated = true ∧ (bs r).participated = true)) ∧
      (∀ bs2, make_payment participants bs s r a = some bs2 →
        (bs2 s).payed = (bs s).payed + a ∧
        (bs2 r).received = (bs r).received + a)) ∧
    (∀ (bs : Cluster → Balance) (t : Cluster) (pmts : List (Cluster × ℚ))
      (x : Cluster),
      pay_bribes bs t pmts x =
        { bs x with
          payed := (bs x).payed +
            ((pmts.filter (fun pa => pa.1 = x)).map Prod.snd).sum,
          received := (bs x).received +
            (if x = t then (pmts.map Prod.snd).sum else 0) }) := by
  constructor
  · intro ps bs s r a
    constructor
    · by_cases h : (s ∈ ps ∧ r ∈ ps ∧ a ≥ 0 ∧
          (bs s).participated = true ∧ (bs r).participated = true) <;>
        simp [make_payment, h]
    · intro bs2 hbs2
      by_cases h : (s ∈ ps ∧ r ∈ ps ∧ a ≥ 0 ∧
          (bs s).participated = true ∧ (bs r).participated = true)
      · rw [make_payment, if_pos h] at hbs2
        obtain rfl := (Option.some.injEq _ _).mp hbs2
        by_cases hsr : s = r
        · subst hsr
          constructor <;> simp
        · constructor <;> simp [hsr, Ne.symm hsr]
      · rw [make_payment, if_neg h] at hbs2
        exact absurd hbs2 (by simp)
  · exact pay_bribes_eq

/-- Witness for C3 at a concrete payment. -/
theorem C3_payment_application_witness :
    ((make_payment [0, 1] (fun _ => { participated := true }) 0 1 5).isSome ↔
      ((0 : Cluster) ∈ ([0, 1] : List Cluster) ∧
        (1 : Cluster) ∈ ([0, 1] : List Cluster) ∧ (5 : ℚ) ≥ 0 ∧
        ((fun _ => ({ participated := true } : Balance)) 0).participated = true ∧
        ((fun _ => ({ participated := true } : Balance)) 1).participated = true)) ∧
    (∃ bs2, make_payment [0, 1] (fun _ => { participated := true }) 0 1 5 =
        some bs2 ∧
      (bs2 0).payed = ({ participated := true } : Balance).payed + 5 ∧
      (bs2 1).received = ({ participated := true } : Balance).received + 5) ∧
    pay_bribes (fun _ => {}) 1 [(0, 5)] 0 =
      { (fun _ => ({} : Balance)) 0 with
        payed := ((fun _ => ({} : Balance)) 0).payed +
          ((([(0, 5)] : List (Cluster × ℚ)).filter
            (fun pa => pa.1 = 0)).map Prod.snd).sum,
        received := ((fun _ => ({} : Balance)) 0).received +
          (if (0 : Cluster) = 1 then
            (([(0, 5)] : List (Cluster × ℚ)).map Prod.snd).sum else 0) } :=
  by
  refine ⟨(C3_payment_application.1 [0, 1] _ 0 1 5).1, ?_,
    C3_payment_application.2 (fun _ => {}) 1 [(0, 5)] 0⟩
  have hs : (make_payment [0, 1]
      (fun _ => ({ participated := true } : Balance)) 0 1 5).isSome :=
    ((C3_payment_application.1 [0, 1] _ 0 1 5).1).mpr (by norm_num)
  obtain ⟨bs2, hbs2⟩ := Option.isSome_iff_exists.mp hs
  exact ⟨bs2, hbs2, (C3_payment_application.1 [0, 1] _ 0 1 5).2 bs2 hbs2⟩

/-- C3 counterexample: with a payer that never participated, the runner's
direct payment application succeeds and moves the money, while
`make_payment` on the same data fails its participation assertion. -/
theorem C3_counterexample :
    make_payment [0, 1] (fun _ => {}) 0 1 5 = none ∧
    ((fun _ => ({} : Balance)) 0).participated = false ∧
    (pay_bribes (fun _ => {}) 1 [(0, 5)] 0).payed = ({} : Balance).payed + 5 ∧
    (pay_bribes (fun _ => {}) 1 [(0, 5)] 1).received =
      ({} : Balance).received + 5 := by
  refine ⟨?_, rfl, ?_, ?_⟩ <;>
    simp [make_payment, pay_bribes, pay_one_bribe]

/-- The attribute names available on a `StakeDistribution` instance, read off
`src/participants/clusters.py`: the class API (`get_clusters`,
`new_cluster_sampler`, the `sample_cluster` property with its
`_sample_cluster` cache) plus the fields set by
`NewStakeDistribution.__init__` (`stake_map`, `clusters`, `cluster_sizes`,
`cluster_sizes_cumulated`). -/
def stake_distribution_attrs : List String :=
  ["get_clusters", "new_cluster_sampler", "sample_cluster", "_sample_cluster",
   "stake_map", "clusters", "cluster_sizes", "cluster_sizes_cumulated"]

/-- The class-level default `Market.EPOCH_SIZE` (`src/market/market.py`,
line 105). -/
def EPOCH_SIZE : ℕ := 32

/-- State of a stake distribution's default sampling stream: the infinite
sequence of draws and the number already consumed. -/
structure StakeDistState where
  stream : ℕ → Cluster
  pos : ℕ

/-- Embeds `Market.sample_sides` (`src/market/market.py`, lines 260-274) in
the default branch (`randomness_source is None`): the code evaluates
`self.stake_dist.iterator`, an attribute `StakeDistribution` does not define
(the default stream is the `sample_cluster` property), so the call raises
`AttributeError`.  Were the attribute present, the two `islice` calls would
take `epoch_size` and then `epoch_size` further consecutive draws from the
one stream. -/
def sample_sides_default (sd : StakeDistState) (epoch_size : ℕ) :
    Except String (StakeDistState × List Cluster × List Cluster) :=
  if "iterator" ∈ stake_distribution_attrs then
    .ok ({ sd with pos := sd.pos + 2 * epoch_size },
      (List.range epoch_size).map (fun i => sd.stream (sd.pos + i)),
      (List.range epoch_size).map (fun i => sd.stream (sd.pos + epoch_size + i)))
  else .error "AttributeError: no attribute iterator"

/-- The constant `DEFAULT_PROPOSER_SLOT_VALUE` (`src/market/runner.py`,
line 14). -/
def DEFAULT_PROPOSER_SLOT_VALUE : ℚ := 100

/-- The `Runner` state fields set by `Runner.__init__`;
`locked_capital_cost_per_epoch` is `Option` because an explicit Python
`None` argument leaves the attribute unset. -/
structure RunnerState where
  locked_capital_cost_per_epoch : Option ℚ
  last_slot_proposer : Cluster
  proposer_slot_value : ℚ

/-- Embeds `Runner.__init__` (`src/market/runner.py`, lines 41-91).  The
outer `Option` on `locked_capital_cost_per_epoch` distinguishes an omitted
keyword argument (`none`: `TypeError`, the parameter is keyword-only with no
default) from an explicitly passed value, possibly Python `None`.
`hasattr(type(self), "locked_capital_cost_per_epoch")` is `False` (the class
carries only an annotation), so the `ValueError` branch of lines 69-71 never
runs and an explicit `None` leaves the attribute unset.  With
`initial_last_slot_proposer = None`, line 87 evaluates
`market.stake_dist.new_iterator`, which `StakeDistribution` does not define
(the factory is `new_cluster_sampler`), raising `AttributeError`; were it
defined, line 91 would still assert `initial_last_slot_proposer in
self.market.participants` on the value `None` and fail. -/
def runner_init (participants : List Cluster)
    (locked_capital_cost_per_epoch : Option (Option ℚ))
    (initial_last_slot_proposer : Option Cluster)
    (proposer_slot_value : Option ℚ) : Except String RunnerState :=
  match locked_capital_cost_per_epoch with
  | none => .error "TypeError: missing keyword-only argument"
  | some locked_value =>
    match initial_last_slot_proposer with
    | none =>
      if "new_iterator" ∈ stake_distribution_attrs then
        .error "AssertionError: initial_last_slot_proposer not in participants"
      else
        .error "AttributeError: no attribute new_iterator"
    | some p =>
      if p ∈ participants then
        .ok { locked_capital_cost_per_epoch := locked_value,
              last_slot_proposer := p,
              proposer_slot_value :=
                proposer_slot_value.getD DEFAULT_PROPOSER_SLOT_VALUE }
      else .error "AssertionError: initial_last_slot_proposer not in participants"

/-- Embeds the validation prologue of `Market.__init__`
(`src/market/market.py`, lines 181-188); it runs before any state is set up,
so an error aborts construction.  Returns the effective
`pay_for_initial_bids`. -/
def market_init_check {α β γ : Type} (initial_bids : Option α)
    (initial_bid_func : Option β) (initial_balances : Option γ)
    (pay_for_initial_bids : Option Bool) : Except String Bool :=
  if initial_bids.isSome ∧ initial_bid_func.isSome then
    .error "ValueError: both initial_bids and initial_bid_func was provided"
  else if initial_balances.isSome ∧ pay_for_initial_bids.isNone then
    .error "ValueError: pay_for_initial_bids must be set explicitly"
  else .ok (pay_for_initial_bids.getD true)

/-- C6 (code defect): `sample_sides` without a randomness source raises
`AttributeError` instead of drawing `2 * epoch_size` clusters from the
default stream, for every stream state and epoch size; the `EPOCH_SIZE`
default is `32`. -/
theorem C6_sample_sides_default_fault :
    (∀ (sd : StakeDistState) (epoch_size : ℕ),
      sample_sides_default sd epoch_size =
        .error "AttributeError: no attribute iterator") ∧
    EPOCH_SIZE = 32 := by
  refine ⟨fun sd epoch_size => ?_, rfl⟩
  rw [sample_sides_default, if_neg]
  decide

/-- C7: supplying both an initial-bids map and a bid factory makes `Market`
construction fail, and omitting `locked_capital_cost_per_epoch` makes
`Runner` construction fail, in both cases before any state is built. -/
theorem C7_construction_faults :
    (∀ {α β γ : Type} (b : α) (f : β) (bals : Option γ) (pay : Option Bool),
      market_init_check (some b) (some f) bals pay =
        .error "ValueError: both initial_bids and initial_bid_func was provided") ∧
    (∀ (participants : List Cluster) (initial : Option Cluster)
      (psv : Option ℚ),
      runner_init participants none initial psv =
        .error "TypeError: missing keyword-only argument") := by
  constructor
  · intro α β γ b f bals pay
    simp [market_init_check]
  · intro ps i psv
    rfl

/-- C8 (code defect): constructing a `Runner` with
`initial_last_slot_proposer` left as `None` fails with `AttributeError`
(and would fail the membership assertion even if the sampler attribute
existed) instead of drawing a random proposer. -/
theorem C8_default_proposer_fault :
    runner_init [0, 1] (some (some (1 / 100))) none none =
      .error "AttributeError: no attribute new_iterator" := by
  rw [runner_init]
  rw [if_neg]
  decide

/-- Market state for the bid-revision step, generic over the concrete bid
type (the abstract `Bid` class of `src/market/market.py`). -/
structure MarketBidState (β : Type) where
  participants : List Cluster
  standing_bids : Cluster → Option β
  balance_sheets : Cluster → Balance

/-- Embeds `Market.place_bid` (`src/market/market.py`, lines 124-149),
parameterized by the concrete mechanism's `cost_for_bid`: assert membership,
replace the standing bid, set `participated` on a non-`None` bid, then add
the transaction cost and overwrite `capital_cost` and `reputation`. -/
def place_bid {β : Type} (cost_for_bid : Option β → Option β → ℚ × ℚ × ℚ)
    (st : MarketBidState β) (bid : Option β) (cluster : Cluster) :
    Except String (MarketBidState β) :=
  if cluster ∈ st.participants then
    let old_bid := st.standing_bids cluster
    let standing_bids2 := fun c => if c = cluster then bid else st.standing_bids c
    let bs1 := if bid.isSome then
        (fun c => if c = cluster then
          { st.balance_sheets c with participated := true }
          else st.balance_sheets c)
      else st.balance_sheets
    let tcr := cost_for_bid old_bid bid
    let bs2 := fun c => if c = cluster then
        { bs1 c with
          transaction_costs := (bs1 c).transaction_costs + tcr.1,
          capital_cost := tcr.2.1,
          reputation := tcr.2.2 }
      else bs1 c
    .ok { st with standing_bids := standing_bids2, balance_sheets := bs2 }
  else .error "AssertionError: cluster not in participants"

/-- Embeds `Runner.update_behaviours` (`src/market/runner.py`, lines
197-203), parameterized by the mechanism's `get_best_bid`: first every
selected cluster's new bid is computed on the current state (the dict
comprehension), and only then are all new bids placed.  The comprehension's
items coincide with the pair list below whenever `clusters` is
duplicate-free, which holds for the caller: `get_participants_who_update`
filters the duplicate-free participant list. -/
def update_behaviours {β : Type}
    (cost_for_bid : Option β → Option β → ℚ × ℚ × ℚ)
    (get_best_bid : MarketBidState β → Cluster → Option β)
    (st : MarketBidState β) (clusters : List Cluster) :
    Except String (MarketBidState β) :=
  let new_bids := clusters.map (fun c => (c, get_best_bid st c))
  new_bids.foldlM (fun s p => place_bid cost_for_bid s p.2 p.1) st

/-- Helper: the last value written for a key by a sequence of dict
assignments. -/
def assoc_last {β : Type} (ps : List (Cluster × Option β)) (x : Cluster) :
    Option (Option β) :=
  ps.foldl (fun acc p => if p.1 = x then some p.2 else acc) none

/-- Helper: `assoc_last` as a fold from an arbitrary accumulator. -/
lemma assoc_last_foldl {β : Type} (ps : List (Cluster × Option β))
    (x : Cluster) (acc : Option (Option β)) :
    ps.foldl (fun acc p => if p.1 = x then some p.2 else acc) acc =
      match assoc_last ps x with
      | some b => some b
      | none => acc := by
  induction ps generalizing acc with
  | nil => simp [assoc_last]
  | cons p t ih =>
    rw [assoc_last, List.foldl_cons, List.foldl_cons, ih, ih]
    by_cases hp : p.1 = x <;>
      cases ht : assoc_last t x <;> simp [hp, assoc_last, ht]

/-- Helper: bind on a successful `Except`. -/
lemma except_ok_bind {ε α β : Type} (a : α) (f : α → Except ε β) :
    (Except.ok a >>= f : Except ε β) = f a := rfl

/-- Helper: bind on a failed `Except`. -/
lemma except_error_bind {ε α β : Type} (e : ε) (f : α → Except ε β) :
    (Except.error e >>= f : Except ε β) = Except.error e := rfl

/-- Helper: a successful `place_bid` replaces exactly the target cluster's
standing bid. -/
lemma place_bid_ok {β : Type} (cost_for_bid : Option β → Option β → ℚ × ℚ × ℚ)
    (st : MarketBidState β) (bid : Option β) (cluster : Cluster)
    (st1 : MarketBidState β)
    (h : place_bid cost_for_bid st bid cluster = .ok st1) (x : Cluster) :
    st1.standing_bids x = if x = cluster then bid else st.standing_bids x := by
  by_cases hmem : cluster ∈ st.participants
  · rw [place_bid, if_pos hmem] at h
    obtain rfl : _ = st1 := Except.ok.inj h
    rfl
  · rw [place_bid, if_neg hmem] at h
    exact absurd h (by simp)

/-- Helper: the standing bids after folding `place_bid` over a list of
(cluster, bid) pairs: the last pair written for a cluster wins, clusters
without a pair keep their bid. -/
lemma foldlM_place_bid_bids {β : Type}
    (cost_for_bid : Option β → Option β → ℚ × ℚ × ℚ)
    (ps : List (Cluster × Option β)) (st st2 : MarketBidState β)
    (hok : ps.foldlM (fun s p => place_bid cost_for_bid s p.2 p.1) st = .ok st2)
    (x : Cluster) :
    st2.standing_bids x =
      match assoc_last ps x with
      | some b => b
      | none => st.standing_bids x := by
  induction ps generalizing st with
  | nil =>
    simp only [List.foldlM_nil] at hok
    obtain rfl : st = st2 := Except.ok.inj hok
    simp [assoc_last]
  | cons p t ih =>
    rw [List.foldlM_cons] at hok
    cases hpb : place_bid cost_for_bid st p.2 p.1 with
    | error e =>
      rw [hpb, except_error_bind] at hok
      exact absurd hok (by simp)
    | ok st1 =>
      rw [hpb, except_ok_bind] at hok
      have hstep := ih _ hok
      rw [hstep]
      have hal : assoc_last (p :: t) x =
          match assoc_last t x with
          | some b => some b
          | none => if p.1 = x then some p.2 else none := by
        rw [assoc_last, List.foldl_cons, assoc_last_foldl]
      rw [hal]
      have hsb := place_bid_ok cost_for_bid st p.2 p.1 st1 hpb
      by_cases hp : p.1 = x
      · cases ht : assoc_last t x <;> simp [ht, hsb, hp.symm]
      · have hxp : ¬ x = p.1 := fun hq => hp hq.symm
        cases ht : assoc_last t x <;> simp [ht, hsb, hp, hxp]

/-- Helper: the last-written bid for each key of the comprehension's items. -/
lemma assoc_last_map {β : Type} (f : Cluster → Option β)
    (clusters : List Cluster) (x : Cluster) :
    assoc_last (clusters.map (fun c => (c, f c))) x =
      if x ∈ clusters then some (f x) else none := by
  induction clusters with
  | nil => simp [assoc_last]
  | cons c t iht =>
    rw [assoc_last, List.map_cons, List.foldl_cons, assoc_last_foldl, iht]
    by_cases hx : x ∈ t
    · simp [hx]
    · by_cases hxc : x = c
      · subst hxc
        simp [hx]
      · have hcx : ¬c = x := fun hq => hxc hq.symm
        simp [hx, hxc, hcx]

/-- C9: every selected cluster's new bid is computed by `get_best_bid` on
the pre-revision state and only then applied, so the final bid book maps
every selected cluster to its snapshot-computed bid and leaves every other
cluster's bid unchanged. -/
theorem C9_snapshot_revision {β : Type}
    (cost_for_bid : Option β → Option β → ℚ × ℚ × ℚ)
    (get_best_bid : MarketBidState β → Cluster → Option β)
    (st : MarketBidState β) (clusters : List Cluster)
    (st2 : MarketBidState β)
    (hok : update_behaviours cost_for_bid get_best_bid st clusters = .ok st2) :
    (∀ c ∈ clusters, st2.standing_bids c = get_best_bid st c) ∧
    (∀ c, c ∉ clusters → st2.standing_bids c = st.standing_bids c) := by
  have hbids := fun x => foldlM_place_bid_bids cost_for_bid
    (clusters.map (fun c => (c, get_best_bid st c))) st st2 hok x
  have hal := fun x => assoc_last_map (get_best_bid st) clusters x
  constructor
  · intro c hc
    rw [hbids c, hal c, if_pos hc]
  · intro c hc
    rw [hbids c, hal c, if_neg hc]

/-- Witness for C9 at a concrete one-cluster revision. -/
theorem C9_snapshot_revision_witness :
    ∃ st2, update_behaviours (fun _ _ => ((1 : ℚ), (10 : ℚ), (5 : ℚ)))
        (fun _ c => some ((c : ℚ) + 1))
        ⟨[0, 1], fun _ => none, fun _ => {}⟩ [0] = .ok st2 ∧
      (∀ c ∈ ([0] : List Cluster), st2.standing_bids c =
        (fun (_ : MarketBidState ℚ) (c : Cluster) => some ((c : ℚ) + 1))
          ⟨[0, 1], fun _ => none, fun _ => {}⟩ c) ∧
      (∀ c, c ∉ ([0] : List Cluster) → st2.standing_bids c =
        (⟨[0, 1], fun _ => none, fun _ => {}⟩ : MarketBidState ℚ).standing_bids c) := by
  refine ⟨_, rfl, ?_⟩
  have h := C9_snapshot_revision (fun _ _ => ((1 : ℚ), (10 : ℚ), (5 : ℚ)))
    (fun _ c => some ((c : ℚ) + 1))
    ⟨[0, 1], fun _ => none, fun _ => {}⟩ [0] _ rfl
  exact ⟨h.1, h.2⟩

end MarketSim
